import Mathlib

/-!
Verification of `src/main.py` (Talk2Repo): a shallow embedding in Lean 4 of the
ingest/query pipeline — URL parsing, recursive repository fetch with an
extension denylist, tree flattening, vector-store ingestion and query,
token-budget truncation, summarization, and answer generation.

External collaborators (the GitHub HTTP API, the chroma vector store, the
OpenAI chat-completion API, and the tiktoken tokenizer) are modelled as
explicit function parameters; the Python standard-library string operations
used by the code (`str.strip`, `str.split`, `str.replace`, `str.isdigit`,
`str.endswith`, `urllib.parse.urlparse`) are embedded as executable Lean
functions over `List Char` / `String`.
-/

namespace Talk2Repo

/-! ## Python string-operation models (over `List Char`) -/

/-- Model of Python `str.strip(ch)` for a character class `p`:
drop the longest run of `p`-characters from both ends. -/
def stripChars (p : Char → Bool) (l : List Char) : List Char :=
  ((l.dropWhile p).reverse.dropWhile p).reverse

/-- Worker for `splitOnChar`: `cur` is the (reversed) current piece. -/
def splitGo (c : Char) (cur : List Char) : List Char → List (List Char)
  | [] => [cur.reverse]
  | x :: xs => if x = c then cur.reverse :: splitGo c [] xs else splitGo c (x :: cur) xs

/-- Model of Python `s.split(c)` for a one-character separator `c`:
`"a//b".split('/') = ["a", "", "b"]`, `"".split('/') = [""]`. -/
def splitOnChar (c : Char) (l : List Char) : List (List Char) :=
  splitGo c [] l

/-- Worker for `replaceAll`. -/
def replaceAllGo (pat : List Char) : Nat → List Char → List Char
  | 0, l => l
  | _ + 1, [] => []
  | fuel + 1, x :: xs =>
    if pat.isPrefixOf (x :: xs) ∧ pat ≠ [] then
      replaceAllGo pat fuel (xs.drop (pat.length - 1))
    else
      x :: replaceAllGo pat fuel xs

/-- Model of Python `s.replace(pat, "")` for a non-empty pattern `pat`:
remove every occurrence of `pat`, scanning left to right, non-overlapping;
structurally recursive on a fuel bounded below by the list length (each
step consumes at least one element, so the fuel never runs out).
(The source only instantiates this with `pat = ".git"`.) -/
def replaceAll (pat l : List Char) : List Char :=
  replaceAllGo pat l.length l

/-- Python ASCII whitespace, the characters removed by `str.strip()`
(the model ignores the non-ASCII Unicode whitespace Python also strips;
no claim depends on it). -/
def isPyWhitespace (c : Char) : Bool :=
  c = ' ' || c = '\t' || c = '\n' || c = '\x0d' || c = '\x0b' || c = '\x0c'

/-- Model of Python `str.strip()` with no argument. -/
def pyStrip (s : String) : String :=
  String.mk (stripChars isPyWhitespace s.toList)

/-- Model of Python `str.isdigit()` restricted to ASCII digits
(Python additionally accepts some Unicode digit characters; the spec's
claims are about decimal digit strings). -/
def pyIsdigit (s : String) : Bool :=
  !s.toList.isEmpty && s.toList.all Char.isDigit

/-- Model of Python `int(s)` on a string of ASCII decimal digits. -/
def pyInt (s : String) : Nat :=
  s.toList.foldl (fun n c => 10 * n + (c.toNat - 48)) 0

/-- Model of Python `s.endswith(suffix)`. -/
def pyEndswith (s suf : String) : Bool :=
  suf.toList.isSuffixOf s.toList

/-! ## `urllib.parse.urlparse(url).path` model

`get_repo_info` uses only the `.path` component of the parsed URL, so only
path extraction is modelled: strip a valid `scheme:` prefix, then a
`//netloc` component (the netloc extends to the first `/`, `?` or `#`),
then cut the remainder at the first `?` or `#`. -/

/-- A valid URL scheme: a letter followed by letters, digits, `+`, `-`, `.`. -/
def validScheme (l : List Char) : Bool :=
  match l with
  | [] => false
  | x :: xs => x.isAlpha && xs.all (fun c => c.isAlphanum || c = '+' || c = '-' || c = '.')

/-- Split at the first occurrence of `c`, if any (Python `str.partition`). -/
def splitFirst (c : Char) (l : List Char) : Option (List Char × List Char) :=
  if c ∈ l then some (l.takeWhile (· ≠ c), (l.dropWhile (· ≠ c)).drop 1) else none

/-- The `.path` component of `urllib.parse.urlparse`, modelled for the
URL shapes the program receives. -/
def urlparsePath (url : List Char) : List Char :=
  let afterScheme :=
    match splitFirst ':' url with
    | some (before, after) => if validScheme before then after else url
    | none => url
  let rest :=
    match afterScheme with
    | '/' :: '/' :: netlocRest =>
      netlocRest.dropWhile (fun ch => ch ≠ '/' && ch ≠ '?' && ch ≠ '#')
    | _ => afterScheme
  rest.takeWhile (fun ch => ch ≠ '?' && ch ≠ '#')

/-! ## `get_repo_info` -/

/-- The pattern stripped from the repository-name segment. -/
def gitPat : List Char := '.' :: 'g' :: 'i' :: 't' :: []

/-- Embedding of `get_repo_info` (src/main.py lines 18-28): parse the URL,
strip `/` from both ends of the path, split on `/`; fewer than two pieces
raises `ValueError`; otherwise owner is the first piece and the repository
name is the second piece with every occurrence of `".git"` removed
(Python `str.replace`). -/
def get_repo_info (repoUrl : String) : Except String (String × String) :=
  let pathParts := splitOnChar '/' (stripChars (· = '/') (urlparsePath repoUrl.toList))
  match pathParts with
  | p0 :: p1 :: _ => .ok (String.mk p0, String.mk (replaceAll gitPat p1))
  | _ => .error "Invalid GitHub repository URL."

/-! ## `get_contents`: recursive repository fetch with extension denylist

The remote side is modelled as an already-materialised tree of listing
entries (`RemoteItem`): listing a directory yields its children in order,
exactly the JSON items the GitHub contents API would return, each with
`type`, `path` and (for files) `download_url`.  The raw-content fetch
(`get_file_content`) is a function parameter `fetch : String → String`
from download URL to text.  The embedding additionally records, in order,
every `(path, download_url)` pair for which a raw-content fetch is issued,
so that "no fetch is issued for a skipped file" is statable. -/

/-- One entry of a remote listing: a file (with its download URL) or a
directory (whose listing is its children, in the order the API returns). -/
inductive RemoteItem where
  | rfile (path : String) (downloadUrl : String)
  | rdir (path : String) (children : List RemoteItem)
deriving Repr

/-- A node of the tree built by `get_contents` (src/main.py lines 30-65):
`{'type': 'file', 'path': .., 'content': ..}` or
`{'type': 'dir', 'path': .., 'contents': ..}`. -/
inductive Entry where
  | file (path : String) (content : String)
  | dir (path : String) (contents : List Entry)
deriving Repr

/-- The fixed denylist of src/main.py line 45. -/
def excluded_extensions : List String :=
  [".png", ".jpg", ".jpeg", ".gif", ".bmp", ".svg", ".mp4", ".mp3", ".wav", ".avi", ".mov"]

/-- The skip test of src/main.py line 48: `any(item['path'].endswith(ext)
for ext in excluded_extensions)`. -/
def isExcludedPath (path : String) : Bool :=
  excluded_extensions.any (fun ext => pyEndswith path ext)

/-- Embedding of `get_contents` (src/main.py lines 30-65) over a
materialised remote listing: returns the built tree together with the
ordered list of `(path, download_url)` raw-content fetches issued.
A file entry with a denylisted path is skipped before any fetch; a file
entry otherwise has its content fetched and becomes a file node; a
directory entry is recursed into and becomes a directory node. -/
def get_contents (fetch : String → String) : List RemoteItem → List Entry × List (String × String)
  | [] => ([], [])
  | .rfile path url :: rest =>
    if isExcludedPath path then
      get_contents fetch rest
    else
      let (es, fs) := get_contents fetch rest
      (.file path (fetch url) :: es, (path, url) :: fs)
  | .rdir path children :: rest =>
    let (ces, cfs) := get_contents fetch children
    let (es, fs) := get_contents fetch rest
    (.dir path ces :: es, cfs ++ fs)

/-- All `(path, content)` pairs of file nodes anywhere in a built tree
(used to state that denylisted files appear nowhere). -/
def allFileNodes : List Entry → List (String × String)
  | [] => []
  | .file p c :: rest => (p, c) :: allFileNodes rest
  | .dir _ cs :: rest => allFileNodes cs ++ allFileNodes rest

/-! ## `flatten_contents` -/

/-- The record appended by `flatten_contents` for each file:
`{'path': .., 'content': ..}`. -/
structure FlatDoc where
  path : String
  content : String
deriving Repr, DecidableEq

/-- Embedding of `flatten_contents` (src/main.py lines 77-94): walk the
node list; a file node appends one record; a directory node recurses into
its contents (emitting them before the remaining siblings). -/
def flatten_contents : List Entry → List FlatDoc
  | [] => []
  | .file p c :: rest => ⟨p, c⟩ :: flatten_contents rest
  | .dir _ cs :: rest => flatten_contents cs ++ flatten_contents rest

/-- The number of file nodes in a tree (directories contribute none). -/
def countFiles : List Entry → Nat
  | [] => 0
  | .file _ _ :: rest => 1 + countFiles rest
  | .dir _ cs :: rest => countFiles cs + countFiles rest

/-- The per-node record sequence of one tree node, written from the spec's
words (§4.3): a file contributes its own `{path, content}` record and a
directory contributes the records of its children in the order received,
depth first. -/
def nodeRecords : Entry → List FlatDoc
  | .file p c => [⟨p, c⟩]
  | .dir _ cs => (cs.attach.map (fun x => nodeRecords x.1)).flatten
decreasing_by
  have h := List.sizeOf_lt_of_mem x.2
  simp_wf
  omega

/-- Spec-side flattening (§4.3): the concatenation, in listing order, of
each node's record sequence. -/
def specFlatten (contents : List Entry) : List FlatDoc :=
  (contents.map nodeRecords).flatten

/-! ## `ingest_into_vector_db` -/

/-- The metadata record `{'path': ..}` attached to each stored document. -/
structure PathMeta where
  path : String
deriving Repr, DecidableEq

/-- The three parallel sequences handed to `collection.add` by
`ingest_into_vector_db` (src/main.py lines 97-107): document texts,
metadata records and ids, all derived from the flattened files in order. -/
def ingestAddArgs (files : List FlatDoc) : List String × List PathMeta × List String :=
  (files.map (fun f => f.content),
   files.map (fun f => PathMeta.mk f.path),
   files.map (fun f => f.path))

/-! ## `query_vector_db`

`collection.query(query_texts=[query], n_results=top_k)` is modelled as a
function parameter `storeQuery` from the query-text list and `n_results`
to the nested `results['documents']` structure (a list of per-query-text
result lists, ranked).  The code's own contribution is flattening that
nested structure in order. -/

/-- Embedding of `query_vector_db` (src/main.py lines 111-126): issue one
store query with a single query text and flatten the nested
`results['documents']` list of lists into one ordered list. -/
def query_vector_db (storeQuery : List String → Nat → List (List String))
    (query : String) (topK : Nat) : List String :=
  (storeQuery [query] topK).flatten

/-! ## `truncate_to_token_limit`

The tiktoken tokenizer (`encoding_for_model('gpt-4')`) is external; it is
modelled as a pair of functions. -/

/-- A tokenizer: `encode` a string to a token list, `decode` a token list
back to a string. -/
structure Tokenizer where
  encode : String → List Nat
  decode : List Nat → String

/-- Embedding of `truncate_to_token_limit` (src/main.py lines 129-138):
encode; if at most `maxTokens` tokens, return the text unchanged;
otherwise decode exactly the first `maxTokens` tokens. -/
def truncate_to_token_limit (tk : Tokenizer) (text : String) (maxTokens : Nat) : String :=
  let tokens := tk.encode text
  if tokens.length ≤ maxTokens then text
  else tk.decode (tokens.take maxTokens)

/-! ## `summarize_text` and `generate_gpt4_response`

The OpenAI chat-completion endpoint is modelled as a function parameter
`chat` from (model, messages, max_tokens, temperature) to either the first
choice's message content or an error; Python exceptions are `Except.error`.
Temperatures are embedded as rationals. -/

/-- One chat message `{role, content}`. -/
structure ChatMessage where
  role : String
  content : String
deriving Repr, DecidableEq

/-- The chat-completion API: model name, messages, `max_tokens`,
temperature; returns the first choice's message content, or fails. -/
def ChatApi : Type :=
  String → List ChatMessage → Nat → Rat → Except String String

/-- Embedding of `summarize_text` (src/main.py lines 141-155): one
chat-completion call with the summarization prompt; the response content
is stripped.  No exception handling: a failure propagates. -/
def summarize_text (chat : ChatApi) (text : String) (maxTokens : Nat := 200) :
    Except String String :=
  let prompt :=
    "Summarize the following text to " ++ toString maxTokens ++ " tokens:\n\n"
      ++ text ++ "\n\nSummary:"
  (chat "gpt-4"
    [⟨"system", "You are a helpful assistant that summarizes text."⟩, ⟨"user", prompt⟩]
    maxTokens (1 / 2)).map pyStrip

/-- The fixed apology string of src/main.py line 196. -/
def apologyString : String :=
  "I'm sorry, I couldn't process your request at the moment."

/-- The answer prompt of src/main.py lines 171-180. -/
def answerPrompt (context query : String) : String :=
  "You are an assistant that provides detailed answers based on the following context:\n\n\nContext:\n"
    ++ context ++ "\n\nQuestion:\n" ++ query ++ "\n\nAnswer:"

/-- Embedding of `generate_gpt4_response` (src/main.py lines 158-196):
summarize every retrieved document (outside any exception handler, so a
summarizer failure propagates out of this function), join the summaries
with a blank line, truncate to the context budget, then issue the final
completion call inside a try/except that converts any failure into the
fixed apology string and otherwise returns the stripped content. -/
def generate_gpt4_response (chat : ChatApi) (tk : Tokenizer) (query : String)
    (contextDocs : List String) (maxContextTokens : Nat := 6000) :
    Except String String := do
  let summarizedContexts ← contextDocs.mapM (fun doc => summarize_text chat doc 200)
  let combinedContext := String.intercalate "\n\n" summarizedContexts
  let context := truncate_to_token_limit tk combinedContext maxContextTokens
  let prompt := answerPrompt context query
  match chat "gpt-4" [⟨"system", "You are a helpful assistant."⟩, ⟨"user", prompt⟩]
      1000 (1 / 5) with
  | .ok content => .ok (pyStrip content)
  | .error _ => .ok apologyString

/-! ## `query_main`'s top-k coercion -/

/-- The top-k coercion of `query_main` (src/main.py lines 205-209): strip
the raw input; if it is not a digit string (`str.isdigit`), use the
default 5, otherwise use `int` of it. -/
def query_main_top_k (rawInput : String) : Nat :=
  let topK := pyStrip rawInput
  if !(pyIsdigit topK) then 5 else pyInt topK

/-! ## Derived definitions used by the verification -/

/-- The number of non-empty segments of `l` when split on `c` (the spec's
"non-empty path segments"). -/
def nonEmptySegCount (c : Char) (l : List Char) : Nat :=
  ((splitOnChar c l).filter (fun seg => !seg.isEmpty)).length

/-- The canonical decimal digit list of `n`, most significant first. -/
def digitsRep (n : Nat) : List Char :=
  if n < 10 then [Nat.digitChar n] else digitsRep (n / 10) ++ [Nat.digitChar (n % 10)]
decreasing_by
  exact Nat.div_lt_self (by omega) (by omega)

/-- A concrete ranked store for the C9 witness: for each query text it
returns the top `n` of a fixed two-document collection. -/
def demoStore : List String → Nat → List (List String) :=
  fun queryTexts n => queryTexts.map (fun _ => ["doc one", "doc two"].take n)

/-- A concrete tokenizer for witnesses: one token per character. -/
def charTok : Tokenizer :=
  { encode := fun s => s.toList.map Char.toNat,
    decode := fun ts => String.mk (ts.map Char.ofNat) }

/-- A chat API for witnesses: summarization calls (`max_tokens = 200`)
succeed; the final answer call (`max_tokens = 1000`) fails or succeeds
according to `failFinal`. -/
def chatStub (failFinal : Bool) : ChatApi := fun _ _ maxTok _ =>
  if maxTok = 200 then .ok "summary"
  else if failFinal then .error "backend down" else .ok " An answer. "

/-- A chat API whose every call fails. -/
def chatDown : ChatApi := fun _ _ _ _ => .error "api down"

/-! ## Lemmas and claim theorems -/

theorem flatten_contents_eq_specFlatten (contents : List Entry) :
    flatten_contents contents = specFlatten contents := by
  induction contents using flatten_contents.induct with
  | case1 => simp [flatten_contents, specFlatten]
  | case2 p c rest ih => simp [flatten_contents, specFlatten, nodeRecords, ih]
  | case3 p cs rest ih1 ih2 =>
    simp [flatten_contents, specFlatten, nodeRecords, List.attach_map_val, ih1, ih2]

theorem length_flatten_contents (contents : List Entry) :
    (flatten_contents contents).length = countFiles contents := by
  induction contents using flatten_contents.induct with
  | case1 => simp [flatten_contents, countFiles]
  | case2 p c rest ih => simp [flatten_contents, countFiles, ih]; omega
  | case3 p cs rest ih1 ih2 => simp [flatten_contents, countFiles, ih1, ih2]

/-- C5: flattening a well-formed tree is total and yields exactly as many
records as there are file nodes (directories contribute none), and the
record sequence equals the spec's depth-first, parent-before-children,
children-in-received-order traversal (`specFlatten`, written from §4.3 of
the spec), each record being a file's `{path, content}`. -/
theorem flatten_contents_spec (contents : List Entry) :
    (flatten_contents contents).length = countFiles contents ∧
    flatten_contents contents = specFlatten contents := by
  exact ⟨length_flatten_contents contents, flatten_contents_eq_specFlatten contents⟩

/-- C10: ingestion preserves per-document alignment: the three sequences
handed to `collection.add` all have the length of the flattened file list,
and at every index `i` the document text is the `i`-th file's content, the
metadata record is `{path: the i-th file's path}` and the id is that same
path. -/
theorem ingestAddArgs_alignment (files : List FlatDoc) (i : Nat) :
    (ingestAddArgs files).1.length = files.length ∧
    (ingestAddArgs files).2.1.length = files.length ∧
    (ingestAddArgs files).2.2.length = files.length ∧
    (ingestAddArgs files).1[i]? = files[i]?.map (fun f => f.content) ∧
    (ingestAddArgs files).2.1[i]? = files[i]?.map (fun f => PathMeta.mk f.path) ∧
    (ingestAddArgs files).2.2[i]? = files[i]?.map (fun f => f.path) := by
  simp [ingestAddArgs]

/-- C9: a similarity query returns the in-order flattening of the store's
nested per-query result; when the store's single result list respects the
`min(k, m)` bound (`m` documents in the collection, `k` requested), the
returned sequence has at most `min(k, m)` elements, hence at most `k`, and
is empty when the collection holds no documents. -/
theorem query_vector_db_spec (storeQuery : List String → Nat → List (List String))
    (query : String) (k m : Nat) (l : List String)
    (hres : storeQuery [query] k = [l]) (hbound : l.length ≤ min k m) :
    query_vector_db storeQuery query k = l ∧
    (query_vector_db storeQuery query k).length ≤ min k m ∧
    (query_vector_db storeQuery query k).length ≤ k ∧
    (m = 0 → query_vector_db storeQuery query k = []) := by
  have hq : query_vector_db storeQuery query k = l := by
    simp [query_vector_db, hres]
  refine ⟨hq, ?_, ?_, ?_⟩
  · rw [hq]; exact hbound
  · rw [hq]; exact le_trans hbound (Nat.min_le_left k m)
  · intro hm
    rw [hq]
    subst hm
    simp at hbound
    exact hbound

/-- C7: no file entry with a denylisted extension survives the fetch: every
file node anywhere in the tree built by `get_contents` has a path failing
the denylist test, and every raw-content fetch issued is for a path
failing the denylist test (a denylisted file is skipped before its
`download_url` is requested). -/
theorem get_contents_excludes (fetch : String → String) (items : List RemoteItem) :
    ((allFileNodes (get_contents fetch items).1).all (fun pc => !(isExcludedPath pc.1)) = true) ∧
    ((get_contents fetch items).2.all (fun pu => !(isExcludedPath pu.1)) = true) := by
  induction items using get_contents.induct fetch with
  | case1 => simp [get_contents, allFileNodes]
  | case2 path url rest hexc ih =>
    simpa [get_contents, hexc] using ih
  | case3 path url rest hexc es fs heq ih =>
    rw [heq] at ih
    simp [get_contents, hexc, heq, allFileNodes, ih.1, ih.2]
  | case4 path children rest ces cfs hc es fs he ihc ihr =>
    rw [hc] at ihc; rw [he] at ihr
    simp [get_contents, hc, he, allFileNodes, ihc.1, ihc.2, ihr.1, ihr.2]

/-- Witness for C9 at a concrete store, query and bounds. -/
theorem query_vector_db_spec_witness :
    query_vector_db demoStore "q" 1 = ["doc one"] ∧
    (query_vector_db demoStore "q" 1).length ≤ min 1 2 ∧
    (query_vector_db demoStore "q" 1).length ≤ 1 ∧
    (2 = 0 → query_vector_db demoStore "q" 1 = []) := by
  exact query_vector_db_spec demoStore "q" 1 2 ["doc one"] (by rfl) (by decide)

theorem truncate_of_le (tk : Tokenizer) (text : String) (maxTokens : Nat)
    (h : (tk.encode text).length ≤ maxTokens) :
    truncate_to_token_limit tk text maxTokens = text := by
  simp [truncate_to_token_limit, h]

/-- C4: the token-budget truncator returns the text unchanged when it
encodes to at most `maxTokens` tokens; otherwise it returns the decoding
of exactly the first `maxTokens` tokens, and — whenever the tokenizer
re-encodes that decoded prefix to itself, which is how the external
tiktoken tokenizer is being relied upon — the result re-encodes to exactly
`maxTokens` tokens; in both cases truncating again at the same limit is
the identity. -/
theorem truncate_to_token_limit_spec (tk : Tokenizer) (text : String) (maxTokens : Nat) :
    ((tk.encode text).length ≤ maxTokens →
      truncate_to_token_limit tk text maxTokens = text ∧
      truncate_to_token_limit tk (truncate_to_token_limit tk text maxTokens) maxTokens
        = truncate_to_token_limit tk text maxTokens) ∧
    (maxTokens < (tk.encode text).length →
      truncate_to_token_limit tk text maxTokens = tk.decode ((tk.encode text).take maxTokens) ∧
      (tk.encode (tk.decode ((tk.encode text).take maxTokens)) = (tk.encode text).take maxTokens →
        (tk.encode (truncate_to_token_limit tk text maxTokens)).length = maxTokens ∧
        truncate_to_token_limit tk (truncate_to_token_limit tk text maxTokens) maxTokens
          = truncate_to_token_limit tk text maxTokens)) := by
  constructor
  · intro hle
    have h1 := truncate_of_le tk text maxTokens hle
    rw [h1]
    exact ⟨rfl, h1⟩
  · intro hgt
    have h1 : truncate_to_token_limit tk text maxTokens
        = tk.decode ((tk.encode text).take maxTokens) := by
      simp [truncate_to_token_limit, Nat.not_le.mpr hgt, hgt]
    refine ⟨h1, fun hrt => ?_⟩
    have hlen : (tk.encode (truncate_to_token_limit tk text maxTokens)).length = maxTokens := by
      rw [h1, hrt, List.length_take]
      omega
    exact ⟨hlen, truncate_of_le tk _ maxTokens (le_of_eq hlen)⟩

/-- Witness for C4 at the character tokenizer: `"a"` is unchanged at limit
1; `"ab"` at limit 1 becomes the decoding of its first token, re-encodes
to exactly one token, and re-truncation is the identity. -/
theorem truncate_to_token_limit_spec_witness :
    (truncate_to_token_limit charTok "a" 1 = "a" ∧
      truncate_to_token_limit charTok (truncate_to_token_limit charTok "a" 1) 1
        = truncate_to_token_limit charTok "a" 1) ∧
    (truncate_to_token_limit charTok "ab" 1
        = charTok.decode ((charTok.encode "ab").take 1) ∧
      (charTok.encode (truncate_to_token_limit charTok "ab" 1)).length = 1 ∧
      truncate_to_token_limit charTok (truncate_to_token_limit charTok "ab" 1) 1
        = truncate_to_token_limit charTok "ab" 1) := by
  refine ⟨(truncate_to_token_limit_spec charTok "a" 1).1 (by decide), ?_⟩
  have h := (truncate_to_token_limit_spec charTok "ab" 1).2 (by decide)
  exact ⟨h.1, h.2 (by rfl)⟩

/-- C6: once all per-document summaries have succeeded, the final
answer-generating completion call is the one place failures are swallowed:
if that call fails, `generate_gpt4_response` returns the fixed apology
string (not an error); if it succeeds, it returns the stripped message
content. -/
theorem generate_gpt4_response_spec (chat : ChatApi) (tk : Tokenizer) (query : String)
    (docs summaries : List String)
    (hsum : docs.mapM (fun doc => summarize_text chat doc 200) = Except.ok summaries) :
    (∀ e, chat "gpt-4"
        [⟨"system", "You are a helpful assistant."⟩,
         ⟨"user", answerPrompt
            (truncate_to_token_limit tk (String.intercalate "\n\n" summaries) 6000) query⟩]
        1000 (1 / 5) = .error e →
      generate_gpt4_response chat tk query docs 6000 = .ok apologyString) ∧
    (∀ c, chat "gpt-4"
        [⟨"system", "You are a helpful assistant."⟩,
         ⟨"user", answerPrompt
            (truncate_to_token_limit tk (String.intercalate "\n\n" summaries) 6000) query⟩]
        1000 (1 / 5) = .ok c →
      generate_gpt4_response chat tk query docs 6000 = .ok (pyStrip c)) := by
  constructor
  · intro e he
    simp only [generate_gpt4_response]
    rw [hsum]
    show (match chat "gpt-4" _ 1000 (1 / 5) with
      | Except.ok content => Except.ok (pyStrip content)
      | Except.error _ => Except.ok apologyString) = _
    rw [he]
  · intro c hc
    simp only [generate_gpt4_response]
    rw [hsum]
    show (match chat "gpt-4" _ 1000 (1 / 5) with
      | Except.ok content => Except.ok (pyStrip content)
      | Except.error _ => Except.ok apologyString) = _
    rw [hc]

/-- Witness for C6: with a failing final call the apology string is
returned; with a succeeding final call the stripped content is returned. -/
theorem generate_gpt4_response_spec_witness :
    generate_gpt4_response (chatStub true) charTok "q" ["doc"] 6000 = .ok apologyString ∧
    generate_gpt4_response (chatStub false) charTok "q" ["doc"] 6000 = .ok "An answer." := by
  constructor
  · exact (generate_gpt4_response_spec (chatStub true) charTok "q" ["doc"] ["summary"]
      (by rfl)).1 "backend down" (by rfl)
  · exact (generate_gpt4_response_spec (chatStub false) charTok "q" ["doc"] ["summary"]
      (by rfl)).2 " An answer. " (by rfl)

/-- C2 (amended): a summarizer failure during answer generation is NOT
degraded to the apology string — `summarize_text` is called outside the
try/except of `generate_gpt4_response` (src/main.py line 163 vs 182), so
the exception escapes the answer generator to its caller. -/
theorem generate_gpt4_response_propagates (chat : ChatApi) (tk : Tokenizer)
    (query d : String) (ds : List String) (e : String)
    (h : summarize_text chat d 200 = .error e) :
    generate_gpt4_response chat tk query (d :: ds) 6000 = .error e := by
  simp only [generate_gpt4_response, List.mapM_cons, h]
  rfl

/-- Counterexample for C2 as stated: when the summarizer call fails, the
answer generator surfaces the error; it does not return the apology
string. -/
theorem generate_gpt4_response_counterexample :
    generate_gpt4_response chatDown charTok "q" ["doc"] 6000 = .error "api down" ∧
    (Except.error "api down" : Except String String) ≠ .ok apologyString := by
  exact ⟨rfl, fun h => by cases h⟩

/-- Witness for the amended C2 at a concrete failing summarizer. -/
theorem generate_gpt4_response_propagates_witness :
    generate_gpt4_response chatDown charTok "q" ["doc"] 6000 = .error "api down" := by
  exact generate_gpt4_response_propagates chatDown charTok "q" "doc" [] "api down" (by rfl)

/-! ### C3: the top-k coercion

`"0".isdigit()` is true in Python, so the input `"0"` is coerced to
`k = 0`, not to the default 5.  The following development also proves that
the canonical decimal representation of any `n` is coerced to `n`. -/

theorem toDigitsCore_eq_digitsRep (fuel n : Nat) (acc : List Char) (h : n < fuel) :
    Nat.toDigitsCore 10 fuel n acc = digitsRep n ++ acc := by
  induction fuel generalizing n acc with
  | zero => omega
  | succ fuel ih =>
    rw [Nat.toDigitsCore]
    by_cases h0 : n / 10 = 0
    · have hlt : n < 10 := by omega
      have hd : digitsRep n = [Nat.digitChar n] := by rw [digitsRep, if_pos hlt]
      rw [if_pos h0, hd, Nat.mod_eq_of_lt hlt]
      simp
    · have hge : ¬ n < 10 := fun hc => h0 (Nat.div_eq_of_lt hc)
      have hd : digitsRep n = digitsRep (n / 10) ++ [Nat.digitChar (n % 10)] := by
        rw [digitsRep, if_neg hge]
      rw [if_neg h0, ih (n / 10) _ (by omega), hd]
      simp

theorem toString_nat_toList (n : Nat) : (toString n).toList = digitsRep n := by
  show (Nat.repr n).toList = digitsRep n
  rw [Nat.repr, Nat.toDigits, toDigitsCore_eq_digitsRep (n + 1) n [] (by omega)]
  simp [List.asString]

theorem digitChar_isDigit (d : Nat) (h : d < 10) : (Nat.digitChar d).isDigit = true := by
  interval_cases d <;> decide

theorem digitChar_not_ws (d : Nat) (h : d < 10) : isPyWhitespace (Nat.digitChar d) = false := by
  interval_cases d <;> decide

theorem digitsRep_facts (n : Nat) :
    digitsRep n ≠ [] ∧ (∀ c ∈ digitsRep n, c.isDigit = true ∧ isPyWhitespace c = false) := by
  induction n using digitsRep.induct with
  | case1 n h =>
    rw [digitsRep, if_pos h]
    exact ⟨by simp, by
      intro c hc
      simp at hc
      subst hc
      exact ⟨digitChar_isDigit n h, digitChar_not_ws n h⟩⟩
  | case2 n h ih =>
    rw [digitsRep, if_neg h]
    refine ⟨by simp [ih.1], ?_⟩
    intro c hc
    simp at hc
    rcases hc with hc | hc
    · exact ih.2 c hc
    · subst hc
      exact ⟨digitChar_isDigit _ (Nat.mod_lt _ (by omega)),
             digitChar_not_ws _ (Nat.mod_lt _ (by omega))⟩

theorem digitChar_toNat (d : Nat) (h : d < 10) : (Nat.digitChar d).toNat = 48 + d := by
  interval_cases d <;> decide

theorem foldl_digitsRep (n i : Nat) :
    List.foldl (fun a c => 10 * a + (c.toNat - 48)) i (digitsRep n)
      = i * 10 ^ (digitsRep n).length + n := by
  induction n using digitsRep.induct generalizing i with
  | case1 n h =>
    have hd : digitsRep n = [Nat.digitChar n] := by rw [digitsRep, if_pos h]
    rw [hd]
    simp only [List.foldl_cons, List.foldl_nil, digitChar_toNat n h, List.length_cons,
      List.length_nil, pow_one, Nat.zero_add]
    omega
  | case2 n h ih =>
    have hd : digitsRep n = digitsRep (n / 10) ++ [Nat.digitChar (n % 10)] := by
      rw [digitsRep, if_neg h]
    rw [hd, List.foldl_append, ih]
    have hm : n % 10 < 10 := Nat.mod_lt _ (by omega)
    have hdm : 10 * (n / 10) + n % 10 = n := Nat.div_add_mod n 10
    simp only [List.foldl_cons, List.foldl_nil, digitChar_toNat _ hm, List.length_append,
      List.length_cons, List.length_nil, Nat.zero_add]
    have h48 : 48 + n % 10 - 48 = n % 10 := by omega
    rw [h48]
    calc 10 * (i * 10 ^ (digitsRep (n / 10)).length + n / 10) + n % 10
        = i * (10 ^ (digitsRep (n / 10)).length * 10) + (10 * (n / 10) + n % 10) := by ring
      _ = i * 10 ^ ((digitsRep (n / 10)).length + 1) + n := by rw [hdm, pow_succ]

theorem stripChars_of_none (p : Char → Bool) (l : List Char)
    (h : ∀ c ∈ l, p c = false) : stripChars p l = l := by
  have hdw : ∀ (m : List Char), (∀ c ∈ m, p c = false) → m.dropWhile p = m := by
    intro m hm
    cases m with
    | nil => rfl
    | cons x xs => simp [List.dropWhile, hm x (by simp)]
  rw [stripChars, hdw l h, hdw l.reverse (by simpa using h), List.reverse_reverse]

theorem pyStrip_toString_nat (n : Nat) : pyStrip (toString n) = toString n := by
  have h := (digitsRep_facts n).2
  rw [pyStrip, toString_nat_toList, stripChars_of_none _ _ (fun c hc => (h c hc).2),
    ← toString_nat_toList]
  rfl

theorem pyIsdigit_toString_nat (n : Nat) : pyIsdigit (toString n) = true := by
  rw [pyIsdigit, toString_nat_toList]
  have h := digitsRep_facts n
  simp [h.1, List.all_eq_true]
  intro c hc
  exact (h.2 c hc).1

theorem pyInt_toString_nat (n : Nat) : pyInt (toString n) = n := by
  rw [pyInt, toString_nat_toList, foldl_digitsRep]
  simp

/-- C3 (amended): when the stripped top-k input is not a digit string, the
default `k = 5` is used; when it is the decimal representation of `n` —
including `"0"` — the coerced value is `n` itself, so `"0"` yields
`k = 0`, not the default. -/
theorem query_main_top_k_spec (s : String) (n : Nat) :
    (pyIsdigit (pyStrip s) = false → query_main_top_k s = 5) ∧
    query_main_top_k (toString n) = n := by
  constructor
  · intro h
    simp [query_main_top_k, h]
  · simp [query_main_top_k, pyStrip_toString_nat, pyIsdigit_toString_nat, pyInt_toString_nat]

/-- Counterexample for C3 as stated: the input `"0"` is not coerced to the
default 5 — `"0".isdigit()` holds, so the workflow uses `k = 0`. -/
theorem query_main_top_k_counterexample :
    query_main_top_k "0" = 0 ∧ (0 : Nat) ≠ 5 := by
  exact ⟨rfl, by decide⟩

/-- Witness for the amended C3 at a non-digit input and at `7`. -/
theorem query_main_top_k_spec_witness :
    (pyIsdigit (pyStrip "many") = false → query_main_top_k "many" = 5) ∧
    query_main_top_k (toString 7) = 7 := by
  exact query_main_top_k_spec "many" 7

/-! ### C1: what `.replace('.git', '')` does to the name segment -/

/-- Counterexample for C1 as stated: `path_parts[1].replace('.git', '')`
removes every occurrence of `".git"`, not only a trailing suffix — the
segment `"my.gitrepo"` has no trailing `".git"` yet comes out as
`"myrepo"`, not preserved as the claim requires. -/
theorem get_repo_info_counterexample :
    get_repo_info "https://github.com/owner/my.gitrepo" = .ok ("owner", "myrepo") ∧
    ("myrepo" : String) ≠ "my.gitrepo" := by
  exact ⟨rfl, by decide⟩

/-- C1 (amended): for every URL whose path (stripped of surrounding `/`)
splits on `/` into at least two segments, the parser returns the first
segment as owner and, as the repository name, the second segment with
every occurrence of `".git"` removed (left to right, non-overlapping),
not merely a trailing suffix. -/
theorem get_repo_info_spec (url : String) (p0 p1 : List Char) (rest : List (List Char))
    (h : splitOnChar '/' (stripChars (· = '/') (urlparsePath url.toList)) = p0 :: p1 :: rest) :
    get_repo_info url = .ok (String.mk p0, String.mk (replaceAll gitPat p1)) := by
  simp only [get_repo_info]
  rw [h]

/-- Witness for the amended C1 at a concrete URL with a trailing `.git`. -/
theorem get_repo_info_spec_witness :
    get_repo_info "https://github.com/owner/repo.git" = .ok ("owner", "repo") := by
  exact get_repo_info_spec "https://github.com/owner/repo.git"
    "owner".toList "repo.git".toList [] (by rfl)

/-! ### C8: the failure condition of the URL parser

`get_repo_info` raises exactly when splitting the stripped path on `/`
yields fewer than two pieces.  The lemmas below show this is equivalent to
the path having fewer than two non-empty `/`-segments: stripping `/` from
both ends changes no non-empty segment, and when the split has two or more
pieces its first and last pieces are non-empty.
-/

theorem splitGo_ne_nil (c : Char) (cur l : List Char) : splitGo c cur l ≠ [] := by
  induction l generalizing cur with
  | nil => simp [splitGo]
  | cons x xs ih =>
    by_cases hx : x = c
    · simp [splitGo, hx]
    · simpa [splitGo, hx] using ih (x :: cur)

theorem splitGo_head (c : Char) (cur l : List Char) :
    (splitGo c cur l).head? = some (cur.reverse ++ l.takeWhile (fun a => !decide (a = c))) := by
  induction l generalizing cur with
  | nil => simp [splitGo]
  | cons x xs ih =>
    by_cases hx : x = c
    · subst hx
      simp [splitGo, List.takeWhile_cons]
    · simp [splitGo, hx, ih (x :: cur), List.takeWhile_cons]

theorem takeWhile_ne_append_of_mem (c : Char) (u v : List Char) (hc : c ∈ u) :
    (u ++ v).takeWhile (fun a => !decide (a = c)) = u.takeWhile (fun a => !decide (a = c)) := by
  induction u with
  | nil => simp at hc
  | cons a u' ih =>
    by_cases ha : a = c
    · subst ha
      simp [List.takeWhile_cons]
    · have hc' : c ∈ u' := by
        rcases List.mem_cons.mp hc with h | h
        · exact absurd h.symm ha
        · exact h
      simp [List.takeWhile_cons, ha, ih hc']

theorem takeWhile_ne_append_sep (c : Char) (u v : List Char) (hu : ∀ a ∈ u, a ≠ c) :
    (u ++ c :: v).takeWhile (fun a => !decide (a = c)) = u := by
  induction u with
  | nil => simp [List.takeWhile_cons]
  | cons a u' ih =>
    have ha : a ≠ c := hu a (by simp)
    simp [List.takeWhile_cons, ha, ih (fun b hb => hu b (by simp [hb]))]

theorem getLast?_cons_of_ne_nil (a : List Char) (L : List (List Char)) (h : L ≠ []) :
    (a :: L).getLast? = L.getLast? := by
  cases L with
  | nil => exact absurd rfl h
  | cons b L' => exact List.getLast?_cons_cons

theorem splitGo_getLast (c : Char) (cur l : List Char) :
    (splitGo c cur l).getLast? = some (if c ∈ l then
      (l.reverse.takeWhile (fun a => !decide (a = c))).reverse
    else cur.reverse ++ l) := by
  induction l generalizing cur with
  | nil => simp [splitGo]
  | cons x xs ih =>
    by_cases hx : x = c
    · subst hx
      rw [show splitGo x cur (x :: xs) = cur.reverse :: splitGo x [] xs by simp [splitGo]]
      rw [getLast?_cons_of_ne_nil _ _ (splitGo_ne_nil x [] xs), ih []]
      by_cases hmem : x ∈ xs
      · have h1 : x ∈ xs.reverse := by simpa using hmem
        simp only [hmem, if_true, List.mem_cons, true_or, if_true, List.reverse_cons]
        rw [takeWhile_ne_append_of_mem x xs.reverse [x] h1]
      · have hall : ∀ a ∈ xs.reverse, a ≠ x :=
          fun a ha hax => hmem (List.mem_reverse.mp (hax ▸ ha))
        simp only [hmem, if_false, List.mem_cons, true_or, if_true, List.reverse_cons,
          List.reverse_nil, List.nil_append]
        rw [takeWhile_ne_append_sep x xs.reverse [] hall]
        simp
    · rw [show splitGo c cur (x :: xs) = splitGo c (x :: cur) xs by simp [splitGo, hx]]
      rw [ih (x :: cur)]
      have hxc : c ∈ x :: xs ↔ c ∈ xs := by
        constructor
        · intro h
          rcases List.mem_cons.mp h with h | h
          · exact absurd h.symm hx
          · exact h
        · intro h
          exact List.mem_cons_of_mem _ h
      by_cases hmem : c ∈ xs
      · have h1 : c ∈ xs.reverse := by simpa using hmem
        simp only [hmem, if_true, hxc, List.reverse_cons]
        rw [takeWhile_ne_append_of_mem c xs.reverse [x] h1]
      · simp only [hmem, if_false, hxc, List.reverse_cons]
        simp

theorem splitGo_append_sep (c : Char) (cur l : List Char) :
    splitGo c cur (l ++ [c]) = splitGo c cur l ++ [[]] := by
  induction l generalizing cur with
  | nil => simp [splitGo]
  | cons x xs ih =>
    by_cases hx : x = c
    · simp [splitGo, hx, ih]
    · simp [splitGo, hx, ih (x :: cur)]



theorem cntNE_dropWhile (c : Char) (l : List Char) :
    nonEmptySegCount c (l.dropWhile (fun a => decide (a = c))) = nonEmptySegCount c l := by
  induction l with
  | nil => rfl
  | cons x xs ih =>
    by_cases hx : x = c
    · subst hx
      rw [show (x :: xs).dropWhile (fun a => decide (a = x)) = xs.dropWhile (fun a => decide (a = x))
        by simp [List.dropWhile]]
      rw [ih]
      show _ = ((splitGo x [] (x :: xs)).filter (fun seg => !seg.isEmpty)).length
      rw [show splitGo x [] (x :: xs) = [] :: splitGo x [] xs by simp [splitGo]]
      simp [nonEmptySegCount, splitOnChar]
    · rw [show (x :: xs).dropWhile (fun a => decide (a = c)) = x :: xs by simp [List.dropWhile, hx]]

theorem cntNE_append_sep (c : Char) (m : List Char) :
    nonEmptySegCount c (m ++ [c]) = nonEmptySegCount c m := by
  show ((splitGo c [] (m ++ [c])).filter _).length = _
  rw [splitGo_append_sep c [] m]
  simp [nonEmptySegCount, splitOnChar]

theorem cntNE_append_replicate (c : Char) (j : Nat) (m : List Char) :
    nonEmptySegCount c (m ++ List.replicate j c) = nonEmptySegCount c m := by
  induction j generalizing m with
  | zero => simp
  | succ j ih =>
    rw [show List.replicate (j + 1) c = c :: List.replicate j c from rfl,
      show m ++ c :: List.replicate j c = (m ++ [c]) ++ List.replicate j c by simp,
      ih (m ++ [c]), cntNE_append_sep]

theorem takeWhile_eq_replicate (c : Char) (u : List Char) :
    u.takeWhile (fun a => decide (a = c))
      = List.replicate (u.takeWhile (fun a => decide (a = c))).length c := by
  rw [List.eq_replicate_iff]
  exact ⟨rfl, fun b hb => by simpa using List.mem_takeWhile_imp hb⟩

theorem dropWhile_head_not (p : Char → Bool) (l h' : List Char) (x : Char)
    (hd : l.dropWhile p = x :: h') : p x = false := by
  induction l with
  | nil => simp at hd
  | cons y ys ih =>
    by_cases hy : p y = true
    · rw [List.dropWhile_cons, if_pos hy] at hd
      exact ih hd
    · rw [List.dropWhile_cons, if_neg hy] at hd
      cases hd
      simpa using hy

theorem stripChars_decomp (c : Char) (l : List Char) :
    ∃ j, l.dropWhile (fun a => decide (a = c))
      = stripChars (fun a => decide (a = c)) l ++ List.replicate j c := by
  set t := l.dropWhile (fun a => decide (a = c)) with ht
  refine ⟨(t.reverse.takeWhile (fun a => decide (a = c))).length, ?_⟩
  have hsplit := List.takeWhile_append_dropWhile (p := fun a => decide (a = c)) (l := t.reverse)
  have hrev := congrArg List.reverse hsplit
  rw [List.reverse_append, List.reverse_reverse] at hrev
  have h2 : (t.reverse.takeWhile (fun a => decide (a = c))).reverse
      = List.replicate (t.reverse.takeWhile (fun a => decide (a = c))).length c := by
    conv_lhs => rw [takeWhile_eq_replicate c t.reverse]
    rw [List.reverse_replicate]
  rw [h2] at hrev
  exact hrev.symm

theorem cntNE_stripChars (c : Char) (l : List Char) :
    nonEmptySegCount c (stripChars (fun a => decide (a = c)) l) = nonEmptySegCount c l := by
  obtain ⟨j, hj⟩ := stripChars_decomp c l
  rw [← cntNE_dropWhile c l, hj, cntNE_append_replicate]

theorem strip_head_ne (c : Char) (l h' : List Char) (x : Char)
    (hs : stripChars (fun a => decide (a = c)) l = x :: h') : x ≠ c := by
  obtain ⟨j, hj⟩ := stripChars_decomp c l
  rw [hs] at hj
  have : decide (x = c) = false := dropWhile_head_not _ _ _ _ hj
  simpa using this

theorem strip_getLast_ne (c : Char) (l h' : List Char) (x : Char)
    (hs : (stripChars (fun a => decide (a = c)) l).reverse = x :: h') : x ≠ c := by
  rw [stripChars, List.reverse_reverse] at hs
  have : decide (x = c) = false := dropWhile_head_not _ _ _ _ hs
  simpa using this



theorem mem_of_getLast?_some (L : List (List Char)) (g : List Char)
    (h : L.getLast? = some g) : g ∈ L := by
  obtain ⟨hne, hg⟩ := List.mem_getLast?_eq_getLast (l := L) (x := g) h
  exact hg ▸ List.getLast_mem hne

theorem cnt_lt_two_of_single (path : List Char) (a : List Char)
    (hp : splitOnChar '/' (stripChars (fun x => decide (x = '/')) path) = [a]) :
    nonEmptySegCount '/' path < 2 := by
  rw [← cntNE_stripChars '/' path]
  show ((splitOnChar '/' _).filter _).length < 2
  rw [hp]
  have h := List.length_filter_le (fun seg : List Char => !seg.isEmpty) [a]
  simp at h
  omega

theorem cnt_ge_two_of_parts (path : List Char) (a b : List Char) (L : List (List Char))
    (hp : splitOnChar '/' (stripChars (fun x => decide (x = '/')) path) = a :: b :: L) :
    2 ≤ nonEmptySegCount '/' path := by
  set s := stripChars (fun x => decide (x = '/')) path with hs
  have hsne : s ≠ [] := by
    intro h
    rw [h] at hp
    simp [splitOnChar, splitGo] at hp
  obtain ⟨h0, s', hhead⟩ := List.exists_cons_of_ne_nil hsne
  have hh0 : h0 ≠ '/' := by
    refine strip_head_ne '/' path s' h0 ?_
    rw [← hs]
    exact hhead
  -- the first piece is the takeWhile prefix of s, which starts with h0
  have hhd := splitGo_head '/' [] s
  rw [show splitGo '/' [] s = splitOnChar '/' s from rfl, hp] at hhd
  simp only [List.head?_cons, List.reverse_nil, List.nil_append, Option.some.injEq] at hhd
  have ha : a = s.takeWhile (fun x => !decide (x = '/')) := hhd
  have hane : a ≠ [] := by
    rw [ha, hhead, List.takeWhile_cons]
    simp [hh0]
  -- the last piece is non-empty as well
  have hlast := splitGo_getLast '/' [] s
  rw [show splitGo '/' [] s = splitOnChar '/' s from rfl, hp] at hlast
  set g := if '/' ∈ s then (s.reverse.takeWhile (fun x => !decide (x = '/'))).reverse
    else List.reverse [] ++ s with hg
  have hgne : g ≠ [] := by
    rw [hg]
    by_cases hmem : '/' ∈ s
    · simp only [hmem, if_true]
      obtain ⟨h1, t1, hrev⟩ : ∃ h1 t1, s.reverse = h1 :: t1 := by
        cases hr : s.reverse with
        | nil => exact absurd (by simpa using congrArg List.reverse hr) hsne
        | cons h1 t1 => exact ⟨h1, t1, rfl⟩
      have hh1 : h1 ≠ '/' := by
        refine strip_getLast_ne '/' path t1 h1 ?_
        rw [← hs]
        exact hrev
      rw [hrev, List.takeWhile_cons]
      simp [hh1]
    · simp only [hmem, if_false]
      simpa using hsne
  have hgmem : g ∈ b :: L := by
    refine mem_of_getLast?_some _ _ ?_
    have h2 : (a :: b :: L).getLast? = some g := hlast
    rwa [List.getLast?_cons_cons] at h2
  -- count the two non-empty pieces
  rw [← cntNE_stripChars '/' path]
  show 2 ≤ ((splitOnChar '/' _).filter _).length
  rw [hp]
  rw [List.filter_cons]
  have hatrue : (!a.isEmpty) = true := by
    cases a with
    | nil => exact absurd rfl hane
    | cons x xs => rfl
  rw [if_pos hatrue]
  have hgfilter : g ∈ (b :: L).filter (fun seg => !seg.isEmpty) := by
    rw [List.mem_filter]
    refine ⟨hgmem, ?_⟩
    obtain ⟨gx, gt, hgc⟩ := List.exists_cons_of_ne_nil hgne
    rw [hgc]
    rfl
  have := List.length_pos.mpr (List.ne_nil_of_mem hgfilter)
  simp only [List.length_cons]
  omega

theorem get_repo_info_error_iff (url : String) :
    (get_repo_info url = .error "Invalid GitHub repository URL." ↔
      nonEmptySegCount '/' (urlparsePath url.toList) < 2) ∧
    ((∃ ow nm, get_repo_info url = .ok (ow, nm)) ↔
      2 ≤ nonEmptySegCount '/' (urlparsePath url.toList)) := by
  cases hp : splitOnChar '/' (stripChars (fun x => decide (x = '/')) (urlparsePath url.toList)) with
  | nil => exact absurd hp (splitGo_ne_nil _ _ _)
  | cons a L =>
    cases L with
    | nil =>
      have herr : get_repo_info url = .error "Invalid GitHub repository URL." := by
        simp only [get_repo_info]
        rw [hp]
      have hcnt := cnt_lt_two_of_single (urlparsePath url.toList) a hp
      refine ⟨⟨fun _ => hcnt, fun _ => herr⟩, ?_, ?_⟩
      · rintro ⟨ow, nm, hok⟩
        rw [herr] at hok
        cases hok
      · intro h
        omega
    | cons b L' =>
      have hok : get_repo_info url = .ok (String.mk a, String.mk (replaceAll gitPat b)) := by
        simp only [get_repo_info]
        rw [hp]
      have hcnt := cnt_ge_two_of_parts (urlparsePath url.toList) a b L' hp
      refine ⟨⟨?_, ?_⟩, fun _ => hcnt, fun _ => ⟨_, _, hok⟩⟩
      · intro h
        rw [hok] at h
        cases h
      · intro h
        omega

/-- Witness for C8: a one-segment path fails, a two-segment path
succeeds. -/
theorem get_repo_info_error_iff_witness :
    get_repo_info "https://github.com/justowner" = .error "Invalid GitHub repository URL." ∧
    (∃ ow nm, get_repo_info "https://github.com/o/n" = .ok (ow, nm)) := by
  exact ⟨(get_repo_info_error_iff "https://github.com/justowner").1.mpr (by decide),
         (get_repo_info_error_iff "https://github.com/o/n").2.mpr (by decide)⟩


end Talk2Repo
